import Mathlib

/-!
Verification development for the Armada repository fragments:
the `AggregatedQueue` gRPC/protobuf surface (pkg/api proto file),
the Kubernetes-native token authentication service,
the Postgres jobset id mapper with its LRU cache, and
the SQL schema-string extractor.

Each Go (or proto) definition is shallowly embedded as an executable
Lean definition, translated directly from the source.  External effects
(base64/JSON decoding, the filesystem, the Kubernetes token-review
endpoint, the database) are modelled as explicit function parameters,
and each operation returns, alongside its result, a record of which
effects it performed.
-/

namespace Armada

/-! ### Protocol buffer model

Embedding of the message and service declarations of the proto file
declaring the `AggregatedQueue` service.  A message is a list of fields
carrying name, type, tag number and the gogoproto `nullable` flag
(recorded as `false` exactly where the source has
`[(gogoproto.nullable) = false]`, `true` otherwise). -/

inductive FieldType where
  | str
  | u32
  | i32
  | dbl
  | bytesT
  | timestamp
  | msg (name : String)
  | mapT (k v : FieldType)
  | rep (t : FieldType)
deriving DecidableEq

structure ProtoField where
  name : String
  type : FieldType
  tag : Nat
  nullable : Bool
deriving DecidableEq

/-- Fields of `message LeaseRequest`, in source order. -/
def LeaseRequest_fields : List ProtoField :=
  [⟨"cluster_id", .str, 1, true⟩,
   ⟨"pool", .str, 8, true⟩,
   ⟨"resources", .mapT .str (.msg "Quantity"), 2, false⟩,
   ⟨"cluster_leased_report", .msg "ClusterLeasedReport", 4, false⟩,
   ⟨"minimum_job_size", .mapT .str (.msg "Quantity"), 6, false⟩,
   ⟨"nodes", .rep (.msg "NodeInfo"), 7, false⟩]

/-- Fields of `message StreamingLeaseRequest`, in source order. -/
def StreamingLeaseRequest_fields : List ProtoField :=
  [⟨"cluster_id", .str, 1, true⟩,
   ⟨"pool", .str, 2, true⟩,
   ⟨"resources", .mapT .str (.msg "Quantity"), 3, false⟩,
   ⟨"cluster_leased_report", .msg "ClusterLeasedReport", 4, false⟩,
   ⟨"minimum_job_size", .mapT .str (.msg "Quantity"), 5, false⟩,
   ⟨"nodes", .rep (.msg "NodeInfo"), 6, false⟩,
   ⟨"ReceivedJobIds", .rep .str, 7, true⟩]

/-- Fields of `message NodeInfo`, in source order. -/
def NodeInfo_fields : List ProtoField :=
  [⟨"name", .str, 1, true⟩,
   ⟨"taints", .rep (.msg "Taint"), 2, false⟩,
   ⟨"labels", .mapT .str .str, 3, true⟩,
   ⟨"allocatable_resources", .mapT .str (.msg "Quantity"), 4, false⟩,
   ⟨"available_resources", .mapT .str (.msg "Quantity"), 5, false⟩,
   ⟨"total_resources", .mapT .str (.msg "Quantity"), 6, false⟩,
   ⟨"allocated_resources", .mapT .i32 (.msg "ComputeResource"), 7, false⟩]

/-- Fields of `message ComputeResource`. -/
def ComputeResource_fields : List ProtoField :=
  [⟨"resources", .mapT .str (.msg "Quantity"), 1, false⟩]

/-- Fields of `message JobLease`. -/
def JobLease_fields : List ProtoField :=
  [⟨"job", .rep (.msg "Job"), 1, true⟩]

/-- Fields of `message StreamingJobLease`, in source order. -/
def StreamingJobLease_fields : List ProtoField :=
  [⟨"job", .msg "Job", 1, true⟩,
   ⟨"numJobs", .u32, 2, true⟩,
   ⟨"numAcked", .u32, 3, true⟩]

/-- Fields of `message IdList`. -/
def IdList_fields : List ProtoField :=
  [⟨"ids", .rep .str, 1, true⟩]

/-- Fields of `message RenewLeaseRequest`. -/
def RenewLeaseRequest_fields : List ProtoField :=
  [⟨"cluster_id", .str, 1, true⟩,
   ⟨"ids", .rep .str, 2, true⟩]

/-- Fields of `message ReturnLeaseRequest`. -/
def ReturnLeaseRequest_fields : List ProtoField :=
  [⟨"cluster_id", .str, 1, true⟩,
   ⟨"job_id", .str, 2, true⟩,
   ⟨"avoid_node_labels", .msg "OrderedStringMap", 4, true⟩,
   ⟨"reason", .str, 5, true⟩,
   ⟨"kubernetes_id", .str, 6, true⟩]

/-- One rpc declaration: name, input message, whether the input is a
stream, output message, whether the output is a stream. -/
structure Rpc where
  name : String
  input : String
  clientStreaming : Bool
  output : String
  serverStreaming : Bool
deriving DecidableEq

/-- The `service AggregatedQueue` declaration, in source order. -/
def AggregatedQueue : List Rpc :=
  [⟨"LeaseJobs", "LeaseRequest", false, "JobLease", false⟩,
   ⟨"StreamingLeaseJobs", "StreamingLeaseRequest", true, "StreamingJobLease", true⟩,
   ⟨"RenewLease", "RenewLeaseRequest", false, "IdList", false⟩,
   ⟨"ReturnLease", "ReturnLeaseRequest", false, "google.protobuf.Empty", false⟩,
   ⟨"ReportDone", "IdList", false, "IdList", false⟩]

/-- Look up the signature of an rpc by name. -/
def rpcSig (svc : List Rpc) (n : String) : Option Rpc :=
  svc.find? (fun r => r.name = n)

/-- Look up a message field by name. -/
def fieldSig (m : List ProtoField) (n : String) : Option ProtoField :=
  m.find? (fun f => f.name = n)

end Armada

namespace Armada

/-- C1: The RPC service exposes exactly five operations: `LeaseJobs`
taking a `LeaseRequest` and returning a `JobLease`, `StreamingLeaseJobs`
as a bidirectional stream of `StreamingLeaseRequest` to
`StreamingJobLease`, `RenewLease` taking a `RenewLeaseRequest` and
returning an `IdList`, `ReturnLease` taking a `ReturnLeaseRequest` and
returning `Empty`, and `ReportDone` taking an `IdList` and returning an
`IdList`. -/
theorem aggregatedQueue_five_operations :
    AggregatedQueue.length = 5 ∧
    rpcSig AggregatedQueue "LeaseJobs" =
      some ⟨"LeaseJobs", "LeaseRequest", false, "JobLease", false⟩ ∧
    rpcSig AggregatedQueue "StreamingLeaseJobs" =
      some ⟨"StreamingLeaseJobs", "StreamingLeaseRequest", true, "StreamingJobLease", true⟩ ∧
    rpcSig AggregatedQueue "RenewLease" =
      some ⟨"RenewLease", "RenewLeaseRequest", false, "IdList", false⟩ ∧
    rpcSig AggregatedQueue "ReturnLease" =
      some ⟨"ReturnLease", "ReturnLeaseRequest", false, "google.protobuf.Empty", false⟩ ∧
    rpcSig AggregatedQueue "ReportDone" =
      some ⟨"ReportDone", "IdList", false, "IdList", false⟩ := by
  decide

/-- C2: `LeaseRequest` and `StreamingLeaseRequest` both carry a cluster
id, a pool, a string-to-quantity resource mapping, a non-nullable
`ClusterLeasedReport`, a minimum-job-size mapping, and a list of
`NodeInfo`; `StreamingLeaseRequest` additionally carries the list
`ReceivedJobIds` of previously received job ids, which `LeaseRequest`
lacks. -/
theorem leaseRequest_field_contracts :
    (∀ m ∈ [LeaseRequest_fields, StreamingLeaseRequest_fields],
      (∃ t, fieldSig m "cluster_id" = some ⟨"cluster_id", .str, t, true⟩) ∧
      (∃ t, fieldSig m "pool" = some ⟨"pool", .str, t, true⟩) ∧
      (∃ t, fieldSig m "resources" =
        some ⟨"resources", .mapT .str (.msg "Quantity"), t, false⟩) ∧
      (∃ t, fieldSig m "cluster_leased_report" =
        some ⟨"cluster_leased_report", .msg "ClusterLeasedReport", t, false⟩) ∧
      (∃ t, fieldSig m "minimum_job_size" =
        some ⟨"minimum_job_size", .mapT .str (.msg "Quantity"), t, false⟩) ∧
      (∃ t, fieldSig m "nodes" =
        some ⟨"nodes", .rep (.msg "NodeInfo"), t, false⟩)) ∧
    (∃ t n, fieldSig StreamingLeaseRequest_fields "ReceivedJobIds" =
      some ⟨"ReceivedJobIds", .rep .str, t, n⟩) ∧
    LeaseRequest_fields.all (fun f => f.name ≠ "ReceivedJobIds") = true ∧
    LeaseRequest_fields.all (fun f => f.type ≠ .rep .str) = true := by
  refine ⟨?_, ⟨7, true, by decide⟩, by decide, by decide⟩
  intro m hm
  simp only [List.mem_cons, List.mem_singleton, List.not_mem_nil, or_false] at hm
  rcases hm with rfl | rfl
  · exact ⟨⟨1, by decide⟩, ⟨8, by decide⟩, ⟨2, by decide⟩, ⟨4, by decide⟩,
      ⟨6, by decide⟩, ⟨7, by decide⟩⟩
  · exact ⟨⟨1, by decide⟩, ⟨2, by decide⟩, ⟨3, by decide⟩, ⟨4, by decide⟩,
      ⟨5, by decide⟩, ⟨6, by decide⟩⟩

/-- C6: `StreamingJobLease` carries exactly one `Job` field together
with `numJobs` and `numAcked`, both unsigned 32-bit counters, and no
other fields. -/
theorem streamingJobLease_fields_shape :
    StreamingJobLease_fields.length = 3 ∧
    (StreamingJobLease_fields.filter (fun f => f.type = .msg "Job")).length = 1 ∧
    fieldSig StreamingJobLease_fields "job" = some ⟨"job", .msg "Job", 1, true⟩ ∧
    fieldSig StreamingJobLease_fields "numJobs" = some ⟨"numJobs", .u32, 2, true⟩ ∧
    fieldSig StreamingJobLease_fields "numAcked" = some ⟨"numAcked", .u32, 3, true⟩ := by
  decide

/-- C7: `NodeInfo` carries a node name, a taint list, a label mapping,
exactly three string-to-quantity resource mappings (allocatable,
available, total), and a mapping from integer priority to a
`ComputeResource`, which itself nests a resource mapping. -/
theorem nodeInfo_fields_shape :
    fieldSig NodeInfo_fields "name" = some ⟨"name", .str, 1, true⟩ ∧
    fieldSig NodeInfo_fields "taints" = some ⟨"taints", .rep (.msg "Taint"), 2, false⟩ ∧
    fieldSig NodeInfo_fields "labels" = some ⟨"labels", .mapT .str .str, 3, true⟩ ∧
    (NodeInfo_fields.filter
      (fun f => f.type = .mapT .str (.msg "Quantity"))).map (fun f => f.name) =
      ["allocatable_resources", "available_resources", "total_resources"] ∧
    fieldSig NodeInfo_fields "allocated_resources" =
      some ⟨"allocated_resources", .mapT .i32 (.msg "ComputeResource"), 7, false⟩ ∧
    ComputeResource_fields =
      [⟨"resources", .mapT .str (.msg "Quantity"), 1, false⟩] := by
  decide

end Armada

namespace Armada

/-! ### Go string searching

`goIndex s sub` is the index of the first occurrence of `sub` in `s`
(Go's `strings.Index`), on the character-list view of strings. -/

def goIndex (s sub : List Char) : Option Nat :=
  if sub.isPrefixOf s then some 0
  else
    match s with
    | [] => none
    | _ :: rest => (goIndex rest sub).map (· + 1)

/-- `occursAt s sub i` holds when `sub` occurs in `s` at index `i`. -/
def occursAt (s sub : List Char) (i : Nat) : Prop :=
  sub <+: s.drop i

instance occursAt_dec (s sub : List Char) (i : Nat) : Decidable (occursAt s sub i) :=
  inferInstanceAs (Decidable (sub <+: s.drop i))

/-- Go's `strings.Contains`. -/
def containsStr (s sub : String) : Bool :=
  (goIndex s.data sub.data).isSome

theorem occursAt_zero (s sub : List Char) : occursAt s sub 0 ↔ sub <+: s := by
  simp [occursAt]

theorem occursAt_cons_succ (c : Char) (rest sub : List Char) (j : Nat) :
    occursAt (c :: rest) sub (j + 1) ↔ occursAt rest sub j := by
  simp [occursAt]

theorem occursAt_nil (sub : List Char) (j : Nat) :
    occursAt ([] : List Char) sub j ↔ sub = [] := by
  simp [occursAt, List.prefix_nil]

theorem goIndex_eq_some (s sub : List Char) :
    ∀ i, goIndex s sub = some i ↔
      (occursAt s sub i ∧ ∀ j, j < i → ¬ occursAt s sub j) := by
  induction s with
  | nil =>
    intro i
    by_cases hp : sub <+: ([] : List Char)
    · have hb : sub.isPrefixOf ([] : List Char) = true := by simpa using hp
      simp only [goIndex, hb, if_true, Option.some.injEq]
      constructor
      · rintro rfl
        exact ⟨(occursAt_zero _ _).mpr hp, by omega⟩
      · rintro ⟨-, hmin⟩
        rcases Nat.eq_zero_or_pos i with rfl | hi
        · rfl
        · exact absurd ((occursAt_zero _ _).mpr hp) (hmin 0 hi)
    · have hb : sub.isPrefixOf ([] : List Char) = false := by
        rw [← Bool.not_eq_true]
        simpa using hp
      simp only [goIndex, hb, Bool.false_eq_true, if_false]
      constructor
      · rintro ⟨⟩
      · rintro ⟨habs, -⟩
        rw [occursAt_nil] at habs
        exact absurd (habs ▸ List.nil_prefix) hp
  | cons c rest ih =>
    intro i
    by_cases hp : sub <+: (c :: rest)
    · have hb : sub.isPrefixOf (c :: rest) = true := by simpa using hp
      simp only [goIndex, hb, if_true, Option.some.injEq]
      constructor
      · rintro rfl
        exact ⟨(occursAt_zero _ _).mpr hp, by omega⟩
      · rintro ⟨-, hmin⟩
        rcases Nat.eq_zero_or_pos i with rfl | hi
        · rfl
        · exact absurd ((occursAt_zero _ _).mpr hp) (hmin 0 hi)
    · have hb : sub.isPrefixOf (c :: rest) = false := by
        rw [← Bool.not_eq_true]
        simpa using hp
      simp only [goIndex, hb, Bool.false_eq_true, if_false]
      constructor
      · intro h
        rcases Option.map_eq_some'.mp h with ⟨k, hk, rfl⟩
        rcases (ih k).mp hk with ⟨hocc, hmin⟩
        refine ⟨(occursAt_cons_succ _ _ _ _).mpr hocc, ?_⟩
        intro j hj
        match j with
        | 0 => exact fun habs => hp ((occursAt_zero _ _).mp habs)
        | j + 1 =>
          intro habs
          exact hmin j (by omega) ((occursAt_cons_succ _ _ _ _).mp habs)
      · rintro ⟨hocc, hmin⟩
        match i with
        | 0 => exact absurd ((occursAt_zero _ _).mp hocc) hp
        | i + 1 =>
          have hocc' : occursAt rest sub i := (occursAt_cons_succ _ _ _ _).mp hocc
          have hmin' : ∀ j, j < i → ¬ occursAt rest sub j := by
            intro j hj habs
            exact hmin (j + 1) (by omega) ((occursAt_cons_succ _ _ _ _).mpr habs)
          rw [(ih i).mpr ⟨hocc', hmin'⟩]
          rfl

theorem goIndex_eq_none (s sub : List Char) :
    goIndex s sub = none ↔ ∀ i, ¬ occursAt s sub i := by
  induction s with
  | nil =>
    by_cases hp : sub <+: ([] : List Char)
    · have hb : sub.isPrefixOf ([] : List Char) = true := by simpa using hp
      simp only [goIndex, hb, if_true]
      constructor
      · rintro ⟨⟩
      · intro h
        exact absurd ((occursAt_zero _ _).mpr hp) (h 0)
    · have hb : sub.isPrefixOf ([] : List Char) = false := by
        rw [← Bool.not_eq_true]
        simpa using hp
      simp only [goIndex, hb, Bool.false_eq_true, if_false, true_iff]
      intro i habs
      rw [occursAt_nil] at habs
      exact absurd (habs ▸ List.nil_prefix) hp
  | cons c rest ih =>
    by_cases hp : sub <+: (c :: rest)
    · have hb : sub.isPrefixOf (c :: rest) = true := by simpa using hp
      simp only [goIndex, hb, if_true]
      constructor
      · rintro ⟨⟩
      · intro h
        exact absurd ((occursAt_zero _ _).mpr hp) (h 0)
    · have hb : sub.isPrefixOf (c :: rest) = false := by
        rw [← Bool.not_eq_true]
        simpa using hp
      simp only [goIndex, hb, Bool.false_eq_true, if_false, Option.map_eq_none']
      rw [ih]
      constructor
      · intro h i
        match i with
        | 0 => exact fun habs => hp ((occursAt_zero _ _).mp habs)
        | i + 1 =>
          intro habs
          exact h i ((occursAt_cons_succ _ _ _ _).mp habs)
      · intro h i habs
        exact h (i + 1) ((occursAt_cons_succ _ _ _ _).mpr habs)

theorem occursAt_drop (s sub : List Char) (a j : Nat) :
    occursAt (s.drop a) sub j ↔ occursAt s sub (a + j) := by
  simp [occursAt, List.drop_drop]

end Armada

namespace Armada

/-! ### Kubernetes native authentication service

Embedding of `KubernetesNativeAuthService` and its `Authenticate`
method.  The base64url/JSON decoding of JWT segments, the kid-mapping
directory, and the Kubernetes TokenReview endpoint are modelled as
explicit function parameters of the service.  The token cache is an
association list from token to the stored `CacheData` together with the
TTL passed to `Set` (a `time.Duration`, i.e. nanoseconds); entries are
looked up while unexpired, as `go-cache` does.  `now` stands for the
clock reading during the call (both `Clock.Now()` and `time.Now()`),
in Unix seconds. -/

/-- Go's `strings.Split` for a one-character separator. -/
def splitChar (sep : Char) : List Char → List (List Char)
  | [] => [[]]
  | c :: rest =>
    let r := splitChar sep rest
    if c = sep then [] :: r
    else (c :: r.headD []) :: r.tail

def goSplit (s : String) (sep : Char) : List String :=
  (splitChar sep s.data).map String.mk

structure CacheData where
  name : String
  valid : Bool
deriving DecidableEq

abbrev TokenCache := List (String × CacheData × Int)

def cacheGet (c : TokenCache) (token : String) : Option (CacheData × Int) :=
  (c.find? (fun e => e.1 = token)).map (fun e => e.2)

def cacheSet (c : TokenCache) (token : String) (d : CacheData) (ttl : Int) : TokenCache :=
  (token, d, ttl) :: c.filter (fun e => e.1 ≠ token)

/-- Decoders for the base64url/JSON steps of JWT parsing: `payloadExp`
reads the `exp` claim from a payload segment (`none` on a decode
failure, the JSON zero value `0` when the claim is absent);
`headerKid` reads the `kid` field from a header segment (`none` on a
decode failure, `""` when the field is absent). -/
structure JwtCodec where
  payloadExp : String → Option Int
  headerKid : String → Option String

inductive ReviewOutcome where
  | reviewErr
  | rejected
  | accepted (username : String)
deriving DecidableEq

structure AuthService where
  kidMappingFileLocation : String
  invalidTokenExpiry : Int
  reviewer : String → String → ReviewOutcome
  fileContents : String → Option String
  codec : JwtCodec

structure Principal where
  name : String
  groups : List String
deriving DecidableEq

def NewStaticPrincipal (name : String) (groups : List String) : Principal :=
  ⟨name, groups⟩

/-- `parseTime`: split the JWT on dots, require exactly three parts,
decode the payload segment and read its `exp` claim (Unix seconds); an
unset expiry is an error. -/
def parseTime (codec : JwtCodec) (token : String) : Except String Int :=
  if (goSplit token '.').length ≠ 3 then
    Except.error "provided JWT token was not of the correct form, should have 3 parts"
  else
    match codec.payloadExp ((goSplit token '.').getD 1 "") with
    | none => Except.error "failed to decode token payload"
    | some expiry =>
      if expiry = 0 then Except.error "token expiry time not set"
      else Except.ok expiry

def validateKid (kid : String) : Except String Unit :=
  if kid = "" then
    Except.error "kubernetes serviceaccount token KID must not be empty"
  else if containsStr kid "../" then
    Except.error "kid appears to contain ../, this appears to be an attack"
  else Except.ok ()

structure UrlResult where
  res : Except String String
  filesRead : List String

/-- `getClusterURL`: decode the token header, read its `kid`, validate
it, and only then read the kid-mapping file. -/
def getClusterURL (svc : AuthService) (token : String) : UrlResult :=
  match svc.codec.headerKid ((goSplit token '.').getD 0 "") with
  | none => ⟨Except.error "failed to decode token header", []⟩
  | some kid =>
    match validateKid kid with
    | Except.error e => ⟨Except.error e, []⟩
    | Except.ok _ =>
      match svc.fileContents (svc.kidMappingFileLocation ++ kid) with
      | none => ⟨Except.error "failed to read kid mapping file",
          [svc.kidMappingFileLocation ++ kid]⟩
      | some url => ⟨Except.ok url, [svc.kidMappingFileLocation ++ kid]⟩

/-- `reviewToken`: call the TokenReviewer; a token the review rejects is
stored in the cache as the negative entry `⟨"", false⟩` with TTL
`invalidTokenExpiry`. -/
def reviewToken (svc : AuthService) (cache : TokenCache) (clusterUrl token : String) :
    Except String String × TokenCache :=
  match svc.reviewer clusterUrl token with
  | ReviewOutcome.reviewErr => (Except.error "review request failed", cache)
  | ReviewOutcome.rejected =>
    (Except.error "provided token was rejected by TokenReview",
      cacheSet cache token ⟨"", false⟩ svc.invalidTokenExpiry)
  | ReviewOutcome.accepted username => (Except.ok username, cache)

/-- Result of one `Authenticate` call: the returned principal or error,
the cache afterwards, and a record of which effects the call performed
(cache lookup, TokenReview request, file reads). -/
structure AuthResult where
  res : Except String Principal
  cache : TokenCache
  cacheRead : Bool
  reviewerCalled : Bool
  filesRead : List String

/-- `Authenticate`, from the point where the `KubernetesAuth` header has
been split into token and CA by `parseAuth`: parse the expiry, reject
expired tokens, consult the cache, resolve the cluster URL from the kid
mapping, review the token, and cache a successful identity with the
token's remaining lifetime as TTL (nanoseconds). -/
def authenticate (svc : AuthService) (now : Int) (cache : TokenCache) (token : String) :
    AuthResult :=
  match parseTime svc.codec token with
  | Except.error e => ⟨Except.error e, cache, false, false, []⟩
  | Except.ok expirationTime =>
    if expirationTime < now then
      ⟨Except.error "invalid token, expired", cache, false, false, []⟩
    else
      match cacheGet cache token with
      | some (cacheInfo, _) =>
        if cacheInfo.valid then
          ⟨Except.ok (NewStaticPrincipal cacheInfo.name [cacheInfo.name]),
            cache, true, false, []⟩
        else
          ⟨Except.error "token invalid", cache, true, false, []⟩
      | none =>
        match (getClusterURL svc token).res with
        | Except.error e =>
          ⟨Except.error e, cache, true, false, (getClusterURL svc token).filesRead⟩
        | Except.ok url =>
          match reviewToken svc cache url token with
          | (Except.error e, cache2) =>
            ⟨Except.error e, cache2, true, true, (getClusterURL svc token).filesRead⟩
          | (Except.ok name, _) =>
            ⟨Except.ok (NewStaticPrincipal name [name]),
              cacheSet cache token ⟨name, true⟩ ((expirationTime - now) * 1000000000),
              true, true, (getClusterURL svc token).filesRead⟩

theorem cacheGet_cacheSet_self (c : TokenCache) (t : String) (d : CacheData) (ttl : Int) :
    cacheGet (cacheSet c t d ttl) t = some (d, ttl) := by
  simp [cacheGet, cacheSet]

end Armada

namespace Armada

/-- C3: `Authenticate` caches a rejected token as a negative entry
(`Valid = false`) with TTL `InvalidTokenExpiry` and a validated token as
a valid entry (`Valid = true` with the principal name) with TTL the
token's remaining lifetime; a cached-invalid hit returns an error and a
cached-valid hit returns the cached principal, in both cases without
calling the TokenReviewer. -/
theorem authenticate_cache_contract (svc : AuthService) (now : Int) (cache : TokenCache)
    (token : String) (tokExp : Int)
    (hparse : parseTime svc.codec token = Except.ok tokExp)
    (hfresh : ¬ tokExp < now) :
    (∀ d ttl, cacheGet cache token = some (d, ttl) → d.valid = false →
      authenticate svc now cache token =
        ⟨Except.error "token invalid", cache, true, false, []⟩) ∧
    (∀ d ttl, cacheGet cache token = some (d, ttl) → d.valid = true →
      authenticate svc now cache token =
        ⟨Except.ok (NewStaticPrincipal d.name [d.name]), cache, true, false, []⟩) ∧
    (∀ url, cacheGet cache token = none →
      (getClusterURL svc token).res = Except.ok url →
      svc.reviewer url token = ReviewOutcome.rejected →
      (authenticate svc now cache token).res =
        Except.error "provided token was rejected by TokenReview" ∧
      cacheGet (authenticate svc now cache token).cache token =
        some (⟨"", false⟩, svc.invalidTokenExpiry)) ∧
    (∀ url name, cacheGet cache token = none →
      (getClusterURL svc token).res = Except.ok url →
      svc.reviewer url token = ReviewOutcome.accepted name →
      (authenticate svc now cache token).res =
        Except.ok (NewStaticPrincipal name [name]) ∧
      cacheGet (authenticate svc now cache token).cache token =
        some (⟨name, true⟩, (tokExp - now) * 1000000000)) := by
  refine ⟨?_, ?_, ?_, ?_⟩
  · intro d ttl hget hval
    unfold authenticate
    rw [hparse]
    dsimp only
    rw [if_neg hfresh, hget]
    simp [hval]
  · intro d ttl hget hval
    unfold authenticate
    rw [hparse]
    dsimp only
    rw [if_neg hfresh, hget]
    simp [hval]
  · intro url hmiss hurl hrev
    unfold authenticate
    rw [hparse]
    dsimp only
    rw [if_neg hfresh, hmiss]
    dsimp only
    rw [hurl]
    dsimp only
    unfold reviewToken
    rw [hrev]
    dsimp only
    exact ⟨rfl, cacheGet_cacheSet_self ..⟩
  · intro url name hmiss hurl hrev
    unfold authenticate
    rw [hparse]
    dsimp only
    rw [if_neg hfresh, hmiss]
    dsimp only
    rw [hurl]
    dsimp only
    unfold reviewToken
    rw [hrev]
    dsimp only
    exact ⟨rfl, cacheGet_cacheSet_self ..⟩

/-- C8: a token whose embedded `exp` claim lies before `Clock.Now()` is
rejected before the cache is consulted: no cache lookup, no TokenReview
request, no file read, and the cache is returned unchanged. -/
theorem authenticate_expired_token (svc : AuthService) (now : Int) (cache : TokenCache)
    (token : String) (tokExp : Int)
    (hparse : parseTime svc.codec token = Except.ok tokExp)
    (hexp : tokExp < now) :
    authenticate svc now cache token =
      ⟨Except.error "invalid token, expired", cache, false, false, []⟩ := by
  unfold authenticate
  rw [hparse]
  dsimp only
  rw [if_pos hexp]

/-- C9: a decodable token header whose `kid` is empty or contains
`"../"` makes `getClusterURL` fail without reading any file, and (when
the token is unexpired and not cached) makes `Authenticate` fail with no
TokenReview request and no file read. -/
theorem getClusterURL_invalid_kid (svc : AuthService) (token kid : String)
    (hkid : svc.codec.headerKid ((goSplit token '.').getD 0 "") = some kid)
    (hbad : kid = "" ∨ containsStr kid "../" = true) :
    (∃ e, getClusterURL svc token = ⟨Except.error e, []⟩) ∧
    (∀ now cache tokExp, parseTime svc.codec token = Except.ok tokExp → ¬ tokExp < now →
      cacheGet cache token = none →
      (∃ e, (authenticate svc now cache token).res = Except.error e) ∧
      (authenticate svc now cache token).reviewerCalled = false ∧
      (authenticate svc now cache token).filesRead = []) := by
  have hval : ∃ e, validateKid kid = Except.error e := by
    unfold validateKid
    by_cases hk : kid = ""
    · exact ⟨"kubernetes serviceaccount token KID must not be empty", by simp [hk]⟩
    · rcases hbad with hk0 | hc
      · exact absurd hk0 hk
      · exact ⟨"kid appears to contain ../, this appears to be an attack", by simp [hk, hc]⟩
  obtain ⟨e, he⟩ := hval
  have hg : getClusterURL svc token = ⟨Except.error e, []⟩ := by
    unfold getClusterURL
    rw [hkid]
    dsimp only
    rw [he]
  refine ⟨⟨e, hg⟩, ?_⟩
  intro now cache tokExp hparse hfresh hmiss
  have ha : authenticate svc now cache token =
      ⟨Except.error e, cache, true, false, []⟩ := by
    unfold authenticate
    rw [hparse]
    dsimp only
    rw [if_neg hfresh, hmiss]
    dsimp only
    rw [hg]
  rw [ha]
  exact ⟨⟨e, rfl⟩, rfl, rfl⟩

/-- Fixture: a service whose reviewer accepts every token as `alice`,
with kid `k1` resolving through the kid-mapping directory. -/
def svcAccepting : AuthService :=
  ⟨"/kid/", 99,
    fun _ _ => ReviewOutcome.accepted "alice",
    fun _ => some "https://cluster.example",
    ⟨fun s => if s = "p" then some 10 else none,
      fun s => if s = "h" then some "k1" else none⟩⟩

/-- Fixture: the same service but with a reviewer rejecting every
token. -/
def svcRejecting : AuthService :=
  ⟨"/kid/", 99,
    fun _ _ => ReviewOutcome.rejected,
    fun _ => some "https://cluster.example",
    ⟨fun s => if s = "p" then some 10 else none,
      fun s => if s = "h" then some "k1" else none⟩⟩

/-- Fixture: a service whose token headers decode to an empty `kid`. -/
def svcEmptyKid : AuthService :=
  ⟨"/kid/", 99,
    fun _ _ => ReviewOutcome.accepted "alice",
    fun _ => some "https://cluster.example",
    ⟨fun s => if s = "p" then some 10 else none,
      fun _ => some ""⟩⟩

theorem authenticate_cache_contract_witness :
    (authenticate svcRejecting 5 [] "h.p.s").res =
      Except.error "provided token was rejected by TokenReview" ∧
    cacheGet (authenticate svcRejecting 5 [] "h.p.s").cache "h.p.s" =
      some (⟨"", false⟩, 99) :=
  (authenticate_cache_contract svcRejecting 5 [] "h.p.s" 10 rfl (by decide)).2.2.1
    "https://cluster.example" rfl rfl rfl

theorem authenticate_expired_token_witness :
    authenticate svcAccepting 11 [] "h.p.s" =
      ⟨Except.error "invalid token, expired", [], false, false, []⟩ :=
  authenticate_expired_token svcAccepting 11 [] "h.p.s" 10 rfl (by decide)

theorem getClusterURL_invalid_kid_witness :
    (∃ e, getClusterURL svcEmptyKid "h.p.s" = ⟨Except.error e, []⟩) ∧
    (∃ e, (authenticate svcEmptyKid 5 [] "h.p.s").res = Except.error e) ∧
    (authenticate svcEmptyKid 5 [] "h.p.s").reviewerCalled = false ∧
    (authenticate svcEmptyKid 5 [] "h.p.s").filesRead = [] :=
  have h := getClusterURL_invalid_kid svcEmptyKid "h.p.s" "" rfl (Or.inl rfl)
  ⟨h.1, h.2 5 [] 10 rfl (by decide) rfl⟩

end Armada

namespace Armada

/-! ### Postgres jobset mapper (internal/eventapi/jobset_mapper.go)

`PostgresJobsetMapper.Get` backed by a bounded LRU cache
(`hashicorp/golang-lru`, itself internally locked and so atomic per
operation) and the database fallback `GetOrCreateJobsetId`, modelled as
a function parameter.  The LRU cache is a most-recent-first association
list with a capacity; `lru.New` requires a positive capacity. -/

structure LRU where
  entries : List (String × Int)
  cap : Nat

/-- `lru.Cache.Get`: look the key up and move it to the front. -/
def lruGet (c : LRU) (k : String) : Option Int × LRU :=
  match c.entries.find? (fun e => e.1 = k) with
  | none => (none, c)
  | some e => (some e.2, ⟨(k, e.2) :: c.entries.filter (fun x => x.1 ≠ k), c.cap⟩)

/-- `lru.Cache.Add`: insert at the front, evicting beyond capacity. -/
def lruAdd (c : LRU) (k : String) (v : Int) : LRU :=
  ⟨((k, v) :: c.entries.filter (fun x => x.1 ≠ k)).take c.cap, c.cap⟩

/-- `key(queue, jobset)`, i.e. `fmt.Sprintf("%s:%s", queue, jobset)`. -/
def key (queue jobset : String) : String :=
  queue ++ ":" ++ jobset

structure MapperResult where
  res : Except String Int
  cache : LRU
  dbCalled : Bool

/-- `PostgresJobsetMapper.Get`: cache lookup, then on a miss the
database fallback `GetOrCreateJobsetId` (the `db` parameter) followed by
a cache insert; a fallback error is returned with no insert. -/
def mapperGet (db : String → String → Except String Int) (c : LRU)
    (queue jobset : String) : MapperResult :=
  match lruGet c (key queue jobset) with
  | (some id, c2) => ⟨Except.ok id, c2, false⟩
  | (none, c2) =>
    match db queue jobset with
    | Except.error e => ⟨Except.error e, c2, true⟩
    | Except.ok id => ⟨Except.ok id, lruAdd c2 (key queue jobset) id, true⟩

/-- C4: `PostgresJobsetMapper.Get` returns the cached id without a
database call on a hit; on a miss it calls the fallback, inserts the
fetched id and returns it; and a failed fallback returns the error with
the cache unchanged, so the key is still a miss afterwards. -/
theorem mapperGet_contract (db : String → String → Except String Int) (c : LRU)
    (queue jobset : String) :
    (∀ p, c.entries.find? (fun e => e.1 = key queue jobset) = some p →
      (mapperGet db c queue jobset).res = Except.ok p.2 ∧
      (mapperGet db c queue jobset).dbCalled = false) ∧
    (∀ id, c.entries.find? (fun e => e.1 = key queue jobset) = none →
      db queue jobset = Except.ok id → 1 ≤ c.cap →
      (mapperGet db c queue jobset).res = Except.ok id ∧
      (mapperGet db c queue jobset).dbCalled = true ∧
      (mapperGet db c queue jobset).cache.entries.find?
        (fun e => e.1 = key queue jobset) = some (key queue jobset, id)) ∧
    (∀ e, c.entries.find? (fun x => x.1 = key queue jobset) = none →
      db queue jobset = Except.error e →
      mapperGet db c queue jobset = ⟨Except.error e, c, true⟩) := by
  refine ⟨?_, ?_, ?_⟩
  · intro p hfind
    unfold mapperGet lruGet
    rw [hfind]
    exact ⟨rfl, rfl⟩
  · intro id hfind hdb hcap
    unfold mapperGet lruGet
    rw [hfind]
    dsimp only
    rw [hdb]
    refine ⟨rfl, rfl, ?_⟩
    unfold lruAdd
    obtain ⟨n, hn⟩ : ∃ n, c.cap = n + 1 := ⟨c.cap - 1, by omega⟩
    rw [hn]
    simp [List.take_succ_cons, List.find?]
  · intro e hfind hdb
    unfold mapperGet lruGet
    rw [hfind]
    dsimp only
    rw [hdb]

theorem mapperGet_contract_witness :
    (mapperGet (fun _ _ => Except.ok 7) ⟨[("q:js", 3)], 2⟩ "q" "js").res = Except.ok 3 ∧
    (mapperGet (fun _ _ => Except.ok 7) ⟨[("q:js", 3)], 2⟩ "q" "js").dbCalled = false ∧
    (mapperGet (fun _ _ => Except.ok 7) ⟨[], 2⟩ "q" "js").res = Except.ok 7 ∧
    (mapperGet (fun _ _ => Except.ok 7) ⟨[], 2⟩ "q" "js").cache.entries.find?
      (fun e => e.1 = key "q" "js") = some (key "q" "js", 7) ∧
    mapperGet (fun _ _ => Except.error "db down") ⟨[], 2⟩ "q" "js" =
      ⟨Except.error "db down", ⟨[], 2⟩, true⟩ :=
  have h1 := (mapperGet_contract (fun _ _ => Except.ok 7) ⟨[("q:js", 3)], 2⟩ "q" "js").1
    ("q:js", 3) rfl
  have h2 := (mapperGet_contract (fun _ _ => Except.ok 7) ⟨[], 2⟩ "q" "js").2.1
    7 rfl rfl (by decide)
  have h3 := (mapperGet_contract (fun _ _ => Except.error "db down") ⟨[], 2⟩ "q" "js").2.2
    "db down" rfl rfl
  ⟨h1.1, h1.2, h2.1, h2.2.2, h3⟩

/-! ### Interleaving model of two concurrent `Get` calls

`PostgresJobsetMapper` declares a `mutex sync.Mutex` field, but `Get`
never locks it: the lookup–fallback–insert sequence runs with no mutual
exclusion, only the individual `lru.Cache` operations are atomic
(golang-lru locks internally).  Two concurrent `Get` calls for the same
key are therefore free to interleave between the cache lookup and the
database fallback.  Each thread is split into the atomic sections of
one `Get` execution: the cache lookup, then (on a miss) the database
fallback together with the insert.  Coarser atomic sections only remove
interleavings, so every behaviour of this model is a behaviour of the
code. -/

inductive ThreadPC where
  | start
  | needDb
  | finished (r : Except String Int)

structure ConcState where
  cache : LRU
  dbCalls : Nat
  pc1 : ThreadPC
  pc2 : ThreadPC

/-- Run one atomic section of one `Get` call. -/
def stepThread (db : String → String → Except String Int) (queue jobset : String)
    (cache : LRU) (dbCalls : Nat) (pc : ThreadPC) : LRU × Nat × ThreadPC :=
  match pc with
  | ThreadPC.start =>
    match lruGet cache (key queue jobset) with
    | (some id, c2) => (c2, dbCalls, ThreadPC.finished (Except.ok id))
    | (none, c2) => (c2, dbCalls, ThreadPC.needDb)
  | ThreadPC.needDb =>
    match db queue jobset with
    | Except.error e => (cache, dbCalls + 1, ThreadPC.finished (Except.error e))
    | Except.ok id =>
      (lruAdd cache (key queue jobset) id, dbCalls + 1, ThreadPC.finished (Except.ok id))
  | ThreadPC.finished r => (cache, dbCalls, ThreadPC.finished r)

/-- Run one atomic section of the first (`true`) or second (`false`)
thread. -/
def stepConc (db : String → String → Except String Int) (queue jobset : String)
    (s : ConcState) (first : Bool) : ConcState :=
  if first then
    match stepThread db queue jobset s.cache s.dbCalls s.pc1 with
    | (c, n, pc) => ⟨c, n, pc, s.pc2⟩
  else
    match stepThread db queue jobset s.cache s.dbCalls s.pc2 with
    | (c, n, pc) => ⟨c, n, s.pc1, pc⟩

/-- Run an interleaving schedule. -/
def runSched (db : String → String → Except String Int) (queue jobset : String)
    (sched : List Bool) (s : ConcState) : ConcState :=
  sched.foldl (stepConc db queue jobset) s

end Armada

namespace Armada

/-- C5: `Get` is not serialized — the `mutex` field is declared but
never locked.  With an empty cache and both threads requesting the same
key, the interleaving in which both threads perform their cache lookup
before either reaches the fallback makes both issue the database
fallback call: `dbCalls` ends at `2`, refuting the claim that the
second concurrent miss waits for or reuses the first lookup's result. -/
theorem mapperGet_unguarded_duplicate_fallback :
    (runSched (fun _ _ => Except.ok 7) "q" "js" [true, false, true, false]
      ⟨⟨[], 10⟩, 0, ThreadPC.start, ThreadPC.start⟩).dbCalls = 2 ∧
    (runSched (fun _ _ => Except.ok 7) "q" "js" [true, false, true, false]
      ⟨⟨[], 10⟩, 0, ThreadPC.start, ThreadPC.start⟩).pc1 =
      ThreadPC.finished (Except.ok 7) ∧
    (runSched (fun _ _ => Except.ok 7) "q" "js" [true, false, true, false]
      ⟨⟨[], 10⟩, 0, ThreadPC.start, ThreadPC.start⟩).pc2 =
      ThreadPC.finished (Except.ok 7) := by
  exact ⟨rfl, rfl, rfl⟩

end Armada

namespace Armada

/-! ### SQL schema extraction (eventscheduler schema.go)

`schemaFromString` searches the lower-cased input for the table header,
then for the first `(` from there, then for the first `);` from that
`(`, and returns the corresponding slice of the original input. -/

/-- `strings.ToLower` on the character-list view (the schema files are
ASCII, where Go's and Lean's case folding agree). -/
def lowered (s : List Char) : List Char := s.map Char.toLower

/-- The pattern `fmt.Sprintf("create table %s", tableName)`; the source
lower-cases the haystack only, not `tableName`. -/
def tableHeader (tableName : List Char) : List Char :=
  ("create table ".data) ++ tableName

/-- `schemaFromString`, with Go's byte slicing `s[i+j : i+j+k-1]`
(where `k` is the index of `);` plus two) rendered as
`(s.drop (i + j)).take (k + 1)`. -/
def schemaFromString (s tableName : List Char) : Except String (List Char) :=
  match goIndex (lowered s) (tableHeader tableName) with
  | none => Except.error "could not find table"
  | some i =>
    match goIndex ((lowered s).drop i) ['('] with
    | none => Except.error "reached EOF when searching for ("
    | some j =>
      match goIndex (((lowered s).drop i).drop j) (");".data) with
      | none => Except.error "reached EOF when searching for );"
      | some k => Except.ok ((s.drop (i + j)).take (k + 1))

/-- `sub` occurs in `s` at `p`, at or after `start`, and at no earlier
index at or after `start`. -/
def firstOccAt (s sub : List Char) (start p : Nat) : Prop :=
  start ≤ p ∧ occursAt s sub p ∧ ∀ j, j < p → start ≤ j → ¬ occursAt s sub j

instance firstOccAt_dec (s sub : List Char) (start p : Nat) :
    Decidable (firstOccAt s sub start p) :=
  inferInstanceAs (Decidable (start ≤ p ∧ occursAt s sub p ∧
    ∀ j, j < p → start ≤ j → ¬ occursAt s sub j))

theorem goIndex_drop_eq_some (s sub : List Char) (a r : Nat) :
    goIndex (s.drop a) sub = some r ↔ firstOccAt s sub a (a + r) := by
  rw [goIndex_eq_some]
  constructor
  · rintro ⟨hocc, hmin⟩
    refine ⟨by omega, (occursAt_drop ..).mp hocc, ?_⟩
    intro j hj hja habs
    apply hmin (j - a) (by omega)
    rw [occursAt_drop]
    have h2 : a + (j - a) = j := by omega
    rw [h2]
    exact habs
  · rintro ⟨hle, hocc, hmin⟩
    refine ⟨(occursAt_drop ..).mpr hocc, ?_⟩
    intro j hj habs
    exact hmin (a + j) (by omega) (by omega) ((occursAt_drop ..).mp habs)

theorem goIndex_drop_eq_none (s sub : List Char) (a : Nat) :
    goIndex (s.drop a) sub = none ↔ ∀ p, a ≤ p → ¬ occursAt s sub p := by
  rw [goIndex_eq_none]
  constructor
  · intro h p hp habs
    apply h (p - a)
    rw [occursAt_drop]
    have h2 : a + (p - a) = p := by omega
    rw [h2]
    exact habs
  · intro h j habs
    exact h (a + j) (by omega) ((occursAt_drop ..).mp habs)

theorem goIndex_eq_some_firstOccAt (s sub : List Char) (i : Nat) :
    goIndex s sub = some i ↔ firstOccAt s sub 0 i := by
  have h := goIndex_drop_eq_some s sub 0 i
  simpa using h

/-- C10: `schemaFromString` errs exactly when the lower-cased input has
no occurrence of `create table <tableName>`, or no `(` at or after the
first such occurrence, or no `);` at or after the first such `(`;
otherwise it returns the slice of the original input from that first
`(` through the `)` of that first `);`, the `;` excluded. -/
theorem schemaFromString_correct (s tableName : List Char) :
    ((∃ e, schemaFromString s tableName = Except.error e) ↔
      ((∀ i, ¬ occursAt (lowered s) (tableHeader tableName) i) ∨
       (∃ i, firstOccAt (lowered s) (tableHeader tableName) 0 i ∧
         ∀ p, i ≤ p → ¬ occursAt (lowered s) ['('] p) ∨
       (∃ i q, firstOccAt (lowered s) (tableHeader tableName) 0 i ∧
         firstOccAt (lowered s) ['('] i q ∧
         ∀ p, q ≤ p → ¬ occursAt (lowered s) (");".data) p))) ∧
    (∀ i q m, firstOccAt (lowered s) (tableHeader tableName) 0 i →
      firstOccAt (lowered s) ['('] i q →
      firstOccAt (lowered s) (");".data) q m →
      schemaFromString s tableName = Except.ok ((s.drop q).take (m - q + 1))) := by
  constructor
  · constructor
    · rintro ⟨e, he⟩
      unfold schemaFromString at he
      cases hA : goIndex (lowered s) (tableHeader tableName) with
      | none =>
        left
        exact (goIndex_eq_none ..).mp hA
      | some i =>
        rw [hA] at he
        dsimp only at he
        cases hB : goIndex ((lowered s).drop i) ['('] with
        | none =>
          right; left
          exact ⟨i, (goIndex_eq_some_firstOccAt ..).mp hA,
            (goIndex_drop_eq_none ..).mp hB⟩
        | some j =>
          rw [hB] at he
          dsimp only at he
          cases hC : goIndex (((lowered s).drop i).drop j) (");".data) with
          | none =>
            right; right
            refine ⟨i, i + j, (goIndex_eq_some_firstOccAt ..).mp hA,
              (goIndex_drop_eq_some ..).mp hB, ?_⟩
            rw [List.drop_drop] at hC
            exact (goIndex_drop_eq_none ..).mp hC
          | some k =>
            rw [hC] at he
            dsimp only at he
            simp at he
    · intro h
      rcases h with hA | ⟨i, hi, hB⟩ | ⟨i, q, hi, hq, hC⟩
      · refine ⟨"could not find table", ?_⟩
        unfold schemaFromString
        rw [(goIndex_eq_none ..).mpr hA]
      · refine ⟨"reached EOF when searching for (", ?_⟩
        unfold schemaFromString
        rw [(goIndex_eq_some_firstOccAt ..).mpr hi]
        dsimp only
        rw [(goIndex_drop_eq_none ..).mpr hB]
      · refine ⟨"reached EOF when searching for );", ?_⟩
        unfold schemaFromString
        rw [(goIndex_eq_some_firstOccAt ..).mpr hi]
        dsimp only
        have hle1 := hq.1
        have hq2 : goIndex ((lowered s).drop i) ['('] = some (q - i) := by
          rw [goIndex_drop_eq_some]
          have h2 : i + (q - i) = q := by omega
          rw [h2]
          exact hq
        rw [hq2]
        dsimp only
        have hC2 : goIndex (((lowered s).drop i).drop (q - i)) (");".data) = none := by
          rw [List.drop_drop]
          have h2 : i + (q - i) = q := by omega
          rw [h2]
          exact (goIndex_drop_eq_none ..).mpr hC
        rw [hC2]
  · intro i q m hi hq hm
    unfold schemaFromString
    rw [(goIndex_eq_some_firstOccAt ..).mpr hi]
    dsimp only
    have hle1 := hq.1
    have hle2 := hm.1
    have hq2 : goIndex ((lowered s).drop i) ['('] = some (q - i) := by
      rw [goIndex_drop_eq_some]
      have h2 : i + (q - i) = q := by omega
      rw [h2]
      exact hq
    rw [hq2]
    dsimp only
    have hm2 : goIndex (((lowered s).drop i).drop (q - i)) (");".data) = some (m - q) := by
      rw [List.drop_drop]
      have h2 : i + (q - i) = q := by omega
      rw [h2, goIndex_drop_eq_some]
      have h3 : q + (m - q) = m := by omega
      rw [h3]
      exact hm
    rw [hm2]
    dsimp only
    have h2 : i + (q - i) = q := by omega
    rw [h2]

theorem schemaFromString_correct_witness :
    schemaFromString ("create table t (a);".data) ("t".data) =
      Except.ok ("(a)".data) := by
  have h := (schemaFromString_correct ("create table t (a);".data) ("t".data)).2
    0 15 17 (by decide) (by decide) (by decide)
  rw [h]
  exact congrArg Except.ok (by decide)

end Armada

namespace Armada

theorem leaseRequest_field_contracts_witness :
    (∃ t, fieldSig LeaseRequest_fields "cluster_id" =
      some ⟨"cluster_id", FieldType.str, t, true⟩) ∧
    (∃ t, fieldSig StreamingLeaseRequest_fields "cluster_leased_report" =
      some ⟨"cluster_leased_report", FieldType.msg "ClusterLeasedReport", t, false⟩) :=
  ⟨(leaseRequest_field_contracts.1 LeaseRequest_fields
      (List.mem_cons_self _ _)).1,
    (leaseRequest_field_contracts.1 StreamingLeaseRequest_fields
      (List.mem_cons_of_mem _ (List.mem_cons_self _ _))).2.2.2.1⟩

end Armada
